import Mathlib

/-!
Verification development for `shell.c`.

A shallow embedding of the command-execution engine of the shell: the built-in
registry (`cmd_table`, `lookup`), the argument-vector / redirection scan run by
the forked child, the path resolver, the supervising parent and the driver
loop of `main`.

Conventions of the embedding:

* a C string is a Lean `String`, one `Char` per C `char`; a `char *` that may
  be `NULL` is an `Option String`;
* the tokenizer behind `tokenizer.h` is taken as given: a token sequence is a
  `List String`;
* system calls made by a process are recorded, in program order, in a trace of
  `Sys` values; what the operating system answers (the descriptor returned by
  `open`, whether `execv` replaces the image, the value of `fork`) is a
  parameter of the model.
-/

namespace Shell

/-! ## Tokens -/

/-- Modelled from the spec: `tokens_get_token` of the absent `tokenizer.c`, the
token-at-index accessor of the Token View; an index past the end yields the
absence value (`cmd_cd` and `lookup` test its result against `NULL`). -/
def tokens_get_token (tokens : List String) (n : Nat) : Option String :=
  tokens[n]?

/-- Modelled from the spec: `tokens_get_length` of the absent `tokenizer.c`, the
length of the Token View. -/
def tokens_get_length (tokens : List String) : Nat :=
  tokens.length

/-- The C expression `s[0]`: the first character of a string, the terminating
NUL for the empty string. -/
def firstChar (s : String) : Char :=
  s.data.headD (Char.ofNat 0)

/-! ## Built-in registry -/

/-- The handlers named in `cmd_table`. -/
inductive Handler
  | cmd_help
  | cmd_exit
  | cmd_pwd
  | cmd_cd
  | cmd_wait
  deriving DecidableEq, Repr

/-- The record `fun_desc_t`. -/
structure fun_desc where
  fn : Handler
  cmd : String
  doc : String
  deriving Repr

/-- The table `cmd_table` (the two commented-out rows are not part of it). -/
def cmd_table : List fun_desc :=
  [ ⟨Handler.cmd_help, "?", "show this help menu"⟩,
    ⟨Handler.cmd_exit, "exit", "exit the command shell"⟩,
    ⟨Handler.cmd_pwd, "pwd", "print working directory"⟩,
    ⟨Handler.cmd_cd, "cd", "change directory"⟩,
    ⟨Handler.cmd_wait, "wait", "wait for all background jobs to terminate"⟩ ]

/-- The loop of `lookup`, from index `i` over the rows not yet visited:
`if (cmd && (strcmp(cmd_table[i].cmd, cmd) == 0)) return i;`. -/
def lookupFrom (cmd : Option String) : List fun_desc → Nat → Int
  | [], _ => -1
  | d :: rest, i =>
    if (match cmd with
        | none => false
        | some c => d.cmd == c) then (i : Int)
    else lookupFrom cmd rest (i + 1)

/-- The function `lookup`: index of the built-in, `-1` when there is none. -/
def lookup (cmd : Option String) : Int :=
  lookupFrom cmd cmd_table 0

/-! ## System calls and process state -/

/-- The signals whose disposition `main` changes. -/
inductive Signal
  | SIGINT
  | SIGSTOP
  | SIGTTOU
  deriving DecidableEq, Repr

/-- The two dispositions passed to `signal`. -/
inductive Disp
  | SIG_DFL
  | SIG_IGN
  deriving DecidableEq, Repr

/-- The access modes `main` passes to `open`: `O_CREAT|O_TRUNC|O_WRONLY` with
mode `0644`, and `O_RDONLY`. -/
inductive OpenMode
  | wronly_creat_trunc
  | rdonly
  deriving DecidableEq, Repr

/-- The system and library calls of `shell.c` that act on the world, with the
arguments they are given. A trace is a list of them in program order.
`prompt n` is the call `fprintf(stdout, "%d: ", n)`; `write fd text` any other
formatted write, to standard output (1) or standard error (2). -/
inductive Sys
  | signal (sig : Signal) (d : Disp)
  | fork
  | setpgid (pid pgid : Nat)
  | tcsetpgrp (pgid : Nat)
  | write (fd : Nat) (text : String)
  | open_ (path : Option String) (mode : OpenMode)
  | dup2 (fd : Int) (target : Nat)
  | execv (path : String) (argv : List String)
  | waitpid (pid : Int) (nohang : Bool)
  | wait
  | getcwd
  | chdir (path : String)
  | prompt (line_num : Int)
  deriving DecidableEq, Repr

/-- How a process stops running the code of `shell.c`. -/
inductive End
  | exited (status : Nat)
  | replaced (path : String) (argv : List String)
  | fault
  | unfinished
  deriving DecidableEq, Repr

/-- A finished run of a process: the calls it made and how it ended.
`End.exited` is a call of `exit`, `End.replaced` an `execv` that succeeded,
`End.fault` undefined behaviour (a `NULL` pointer read as a string, or a write
past the 4096 bytes of `resolved`), `End.unfinished` the iteration bound of the
model being reached (`pathLoop_finishes` shows it never is). -/
structure Run where
  trace : List Sys
  fin : End
  deriving DecidableEq, Repr

/-- What the operating system answers to the child: the descriptor returned by
`open` (negative on failure), whether `execv` replaces the image, the string of
`confstr(_CS_PATH)`, the value of `getpid()`, and the global `shell_pgid`
inherited from the shell. -/
structure Env where
  open_ : Option String → OpenMode → Int
  execv : String → List String → Bool
  cs_path : String
  getpid : Nat
  shell_pgid : Nat

/-! ## The child: argument vector and redirections -/

/-- One slot of the `malloc`ed array `argv`: not yet written, `NULL`, or a
pointer to a token. -/
inductive Cell
  | uninit
  | null
  | str (s : String)
  deriving DecidableEq, Repr

/-- The child's `argv` array together with the calls made so far. -/
structure Frame where
  argv : List Cell
  trace : List Sys
  deriving DecidableEq, Repr

/-- Result of the `for` loop over the tokens: control leaves the loop
(`done`, by exhaustion or `break`), or the process ends inside it. -/
inductive Scan
  | done (f : Frame)
  | stop (f : Frame) (e : End)
  deriving DecidableEq, Repr

/-- A token pointer stored into `argv`. -/
def Cell.ofToken : Option String → Cell
  | none => Cell.null
  | some s => Cell.str s

/-- Appends one call to the trace. -/
def Frame.emit (f : Frame) (c : Sys) : Frame :=
  { f with trace := f.trace ++ [c] }

/-- The assignment `argv[i] = c`. -/
def Frame.store (f : Frame) (i : Nat) (c : Cell) : Frame :=
  { f with argv := f.argv.set i c }

/-- The loop `for (unsigned int arg = 0; arg < argc; arg++)` of the child. The
first numeric argument is the number of iterations left, `argc - arg`. -/
def argvLoop (env : Env) (tokens : List String) (argc : Nat) : Nat → Nat → Frame → Scan
  | 0, _, f => Scan.done f
  | n + 1, arg, f0 =>
    let tok := tokens_get_token tokens arg
    let f := f0.store arg (Cell.ofToken tok)
    match tok with
    | none => Scan.stop f End.fault
    | some t =>
      if firstChar t = '>' then
        let f1 := if arg + 1 ≥ argc then f.emit (Sys.write 2 "Syntax error.\n") else f
        let path := tokens_get_token tokens (arg + 1)
        let newfd := env.open_ path OpenMode.wronly_creat_trunc
        let f2 := f1.emit (Sys.open_ path OpenMode.wronly_creat_trunc)
        if newfd < 0 then
          Scan.stop (f2.emit (Sys.write 2 "Error opening file for writing.\n")) (End.exited 1)
        else
          Scan.done ((f2.emit (Sys.dup2 newfd 1)).store arg Cell.null)
      else if firstChar t = '<' then
        let f1 := if argc < 3 then f.emit (Sys.write 2 "Syntax error.\n") else f
        let path := tokens_get_token tokens (arg + 1)
        let newfd := env.open_ path OpenMode.rdonly
        let f2 := f1.emit (Sys.open_ path OpenMode.rdonly)
        if newfd < 0 then
          Scan.stop (f2.emit (Sys.write 2 "Error opening file for reading.\n")) (End.exited 1)
        else
          Scan.done ((f2.emit (Sys.dup2 newfd 0)).store arg Cell.null)
      else if firstChar t = '&' then
        Scan.done ((f.emit (Sys.tcsetpgrp env.shell_pgid)).store arg Cell.null)
      else
        argvLoop env tokens argc n (arg + 1) f

/-- The calls of the child between `fork` and the allocation of `argv`. In the
child `pid` is 0; `getpgid(pid)` is the group the preceding `setpgid` has just
set, the child's own pid. -/
def childPrologue (env : Env) : List Sys :=
  [ Sys.setpgid 0 env.getpid,
    Sys.tcsetpgrp env.getpid,
    Sys.signal Signal.SIGINT Disp.SIG_DFL,
    Sys.signal Signal.SIGSTOP Disp.SIG_DFL,
    Sys.signal Signal.SIGTTOU Disp.SIG_DFL ]

/-- The "argv processing" block of the child: `malloc` of `argc + 1` slots
(taken to succeed), the loop, and `argv[argc] = NULL`. -/
def buildArgv (env : Env) (tokens : List String) : Scan :=
  let argc := tokens_get_length tokens
  match argvLoop env tokens argc argc 0
      { argv := List.replicate (argc + 1) Cell.uninit, trace := childPrologue env } with
  | Scan.done f => Scan.done (f.store argc Cell.null)
  | Scan.stop f e => Scan.stop f e

/-- The argument vector as `execv` reads it: the strings before the first
`NULL`; `none` when a slot never written is met first. -/
def argvStrings : List Cell → Option (List String)
  | [] => none
  | Cell.uninit :: _ => none
  | Cell.null :: _ => some []
  | Cell.str s :: rest => (argvStrings rest).map (fun l => s :: l)

/-! ## The child: path resolution -/

/-- The library function `strtok` with a single delimiter, on the characters
not yet consumed: skips leading delimiters, returns `none` (`NULL`) at the end
of the buffer, otherwise the token and the characters after the delimiter that
ended it. -/
def strtok (delim : Char) (s : List Char) : Option (List Char × List Char) :=
  match s.dropWhile (fun c => c == delim) with
  | [] => none
  | c :: cs =>
    some ((c :: cs).takeWhile (fun x => x != delim),
          ((c :: cs).dropWhile (fun x => x != delim)).drop 1)

/-- The loop `while (pathtok != NULL)`: builds `resolved` and tries `execv`.
The first argument bounds the number of iterations; `path_len` is the value
returned by `confstr`. -/
def pathLoop (env : Env) (name : String) (args : List String) (path_len : Nat) :
    Nat → Option (List Char × List Char) → List Sys → Sum (List Sys) Run
  | 0, _, tr => Sum.inr ⟨tr, End.unfinished⟩
  | _ + 1, none, tr => Sum.inl tr
  | n + 1, some (pathtok, rest), tr =>
    if path_len > 4096 ∨ pathtok.length + 1 + name.length + 1 > 4096 then
      Sum.inr ⟨tr, End.fault⟩
    else
      let resolved := String.mk pathtok ++ "/" ++ name
      if env.execv resolved args then
        Sum.inr ⟨tr, End.replaced resolved args⟩
      else
        pathLoop env name args path_len n (strtok ':' rest) (tr ++ [Sys.execv resolved args])

/-- The child from `strchr(argv[0], '/')` to `exit(0)`: path resolution for a
bare name, a direct `execv` otherwise, then the "command not found" report.
`name` is `argv[0]` and `args` the vector `execv` reads from `argv`; the
`malloc` of `pathbuf` is taken to succeed. -/
def resolve (env : Env) (name : String) (args : List String) (tr : List Sys) : Run :=
  if '/' ∉ name.data then
    let path_len := env.cs_path.length + 1
    match pathLoop env name args path_len path_len (strtok ':' env.cs_path.data) tr with
    | Sum.inr r => r
    | Sum.inl tr1 => ⟨tr1 ++ [Sys.write 2 (name ++ ": command not found\n")], End.exited 0⟩
  else if env.execv name args then
    ⟨tr, End.replaced name args⟩
  else
    ⟨tr ++ [Sys.execv name args, Sys.write 2 (name ++ ": command not found\n")], End.exited 0⟩

/-- The branch `if (!pid)` of `main`: the whole run of the forked child.
`strchr` reads `argv[0]` as a string, which is a fault when it is `NULL`. -/
def child (env : Env) (tokens : List String) : Run :=
  match buildArgv env tokens with
  | Scan.stop f e => ⟨f.trace, e⟩
  | Scan.done f =>
    match f.argv.head?, argvStrings f.argv with
    | some (Cell.str name), some args => resolve env name args f.trace
    | _, _ => ⟨f.trace, End.fault⟩

/-- An environment in which every `open` returns descriptor 3 and every `execv`
fails, with the usual default path. -/
def quietEnv : Env :=
  { open_ := fun _ _ => 3
    execv := fun _ _ => false
    cs_path := "/bin:/usr/bin"
    getpid := 101
    shell_pgid := 100 }

/-! ## The parent and the driver loop -/

/-- The test `tokens_length > 1 && tokens_get_token(tokens, tokens_length-1)[0] == '&'`
of the parent. The index is in range whenever the left operand holds, so the
accessor does not return `NULL` there. -/
def background (tokens : List String) : Bool :=
  let tokens_length := tokens_get_length tokens
  decide (tokens_length > 1) &&
    (match tokens_get_token tokens (tokens_length - 1) with
     | some t => firstChar t == '&'
     | none => false)

/-- The `else` branch of `if (!pid)`: the calls of the parent after `fork`
returned `pid`. -/
def supervise (shell_pgid : Nat) (tokens : List String) (pid : Int) : List Sys :=
  [ if background tokens then Sys.waitpid pid true else Sys.waitpid pid false,
    Sys.tcsetpgrp shell_pgid,
    Sys.signal Signal.SIGINT Disp.SIG_DFL,
    Sys.signal Signal.SIGSTOP Disp.SIG_DFL,
    Sys.signal Signal.SIGTTOU Disp.SIG_DFL ]

/-- One input line as `main` receives it: its tokens, and what the operating
system answers while it is dispatched: the value `fork` returns to the process
running `main`, the result of `getcwd`, of `chdir`, the number of children
`wait` reaps before it returns `-1`, and the environment of a forked child. -/
structure Line where
  tokens : List String
  fork : Int
  getcwd : Option String
  chdir : String → Int
  reaped : Nat
  child : Env

/-- The calls of one dispatch, and how the process ended if it did. -/
structure Step where
  trace : List Sys
  fin : Option End

/-- The handler `cmd_help`. -/
def cmd_help : Step :=
  ⟨cmd_table.map (fun d => Sys.write 1 (d.cmd ++ " - " ++ d.doc ++ "\n")), none⟩

/-- The handler `cmd_exit`. -/
def cmd_exit : Step :=
  ⟨[], some (End.exited 0)⟩

/-- The handler `cmd_pwd`. -/
def cmd_pwd (l : Line) : Step :=
  match l.getcwd with
  | some cwd => ⟨[Sys.getcwd, Sys.write 1 (cwd ++ "\n")], none⟩
  | none => ⟨[Sys.getcwd, Sys.write 2 "Error."], none⟩

/-- The handler `cmd_cd`. -/
def cmd_cd (l : Line) : Step :=
  match tokens_get_token l.tokens 1 with
  | none => ⟨[Sys.write 2 "Please specify a directory.\n"], none⟩
  | some filename =>
    if l.chdir filename ≠ 0 then
      ⟨[Sys.chdir filename, Sys.write 2 (filename ++ " not found.\n")], none⟩
    else
      ⟨[Sys.chdir filename], none⟩

/-- The handler `cmd_wait`: one call of `wait` per child reaped, and the one
that returns `-1`. -/
def cmd_wait (l : Line) : Step :=
  ⟨Sys.write 2 "Stop. Wait a minute.\n" :: List.replicate (l.reaped + 1) Sys.wait, none⟩

/-- The call `cmd_table[fundex].fun(tokens)`. -/
def invoke (h : Handler) (l : Line) : Step :=
  match h with
  | Handler.cmd_help => cmd_help
  | Handler.cmd_exit => cmd_exit
  | Handler.cmd_pwd => cmd_pwd l
  | Handler.cmd_cd => cmd_cd l
  | Handler.cmd_wait => cmd_wait l

/-- The calls of the process before `fork` returns. -/
def preFork : List Sys :=
  [ Sys.signal Signal.SIGINT Disp.SIG_IGN,
    Sys.signal Signal.SIGSTOP Disp.SIG_IGN,
    Sys.signal Signal.SIGTTOU Disp.SIG_IGN,
    Sys.fork ]

/-- The body of the `while (fgets(...))` loop from `lookup` to the end of the
`if (fundex >= 0) ... else ...` statement, in the process to which `fork`
returns `l.fork`. -/
def dispatch (shell_pgid : Nat) (l : Line) : Step :=
  let fundex := lookup (tokens_get_token l.tokens 0)
  if fundex ≥ 0 then
    match cmd_table[fundex.toNat]? with
    | some d => invoke d.fn l
    | none => ⟨[], some End.fault⟩
  else
    let argc := tokens_get_length l.tokens
    if argc > 0 then
      if l.fork = 0 then
        let r := child { l.child with shell_pgid := shell_pgid } l.tokens
        ⟨preFork ++ r.trace, some r.fin⟩
      else
        ⟨preFork ++ supervise shell_pgid l.tokens l.fork, none⟩
    else
      ⟨[], none⟩

/-- The value an `int` holds after an arithmetic result `x` (two's complement,
32 bits). -/
def wrapInt (x : Int) : Int :=
  (x + 2147483648) % 4294967296 - 2147483648

/-- The globals and locals of `main`, the calls made so far and how the
process ended, if it did. -/
structure Main where
  shell_is_interactive : Bool
  shell_pgid : Nat
  line_num : Int
  trace : List Sys
  fin : Option End

/-- The state at the first `fgets`: `init_shell` (with the shell already in the
foreground, so that its waiting loop is not entered), `line_num = 0` and the
first prompt. `isatty` is the answer of `isatty(shell_terminal)`, `pid` that of
`getpid()`. -/
def start (isatty : Bool) (pid : Nat) : Main :=
  { shell_is_interactive := isatty
    shell_pgid := if isatty then pid else 0
    line_num := 0
    trace := if isatty then [Sys.tcsetpgrp pid, Sys.prompt 0] else []
    fin := none }

/-- One iteration of the loop of `main` on the line `l`. A process that has
ended stays as it is. -/
def iteration (m : Main) (l : Line) : Main :=
  match m.fin with
  | some _ => m
  | none =>
    let r := dispatch m.shell_pgid l
    match r.fin with
    | some e => { m with trace := m.trace ++ r.trace, fin := some e }
    | none =>
      if m.shell_is_interactive then
        let n := wrapInt (m.line_num + 1)
        { m with line_num := n, trace := m.trace ++ r.trace ++ [Sys.prompt n] }
      else
        { m with trace := m.trace ++ r.trace }

/-- The loop of `main` over the lines read. -/
def session (isatty : Bool) (pid : Nat) (lines : List Line) : Main :=
  lines.foldl iteration (start isatty pid)

/-- A line without tokens, with some answers of the operating system. -/
def blankLine : Line :=
  { tokens := []
    fork := 101
    getcwd := some "/tmp"
    chdir := fun _ => 0
    reaped := 0
    child := quietEnv }

/-- The line `pwd`. -/
def pwdLine : Line :=
  { blankLine with tokens := ["pwd"] }

/-- The line `sleep 5 > out &`, dispatched in the shell process (`fork`
returns the pid 101 of the child). -/
def redirectedJob : Line :=
  { blankLine with tokens := ["sleep", "5", ">", "out", "&"] }

/-! ## Kernel state as a function of the calls made -/

/-- Effect of one call on the disposition of `sig`. `SIGSTOP` cannot be
ignored: `signal` fails on it and changes nothing. -/
def sigStep (sig : Signal) (d : Disp) : Sys → Disp
  | Sys.signal s d1 => if s = sig ∧ s ≠ Signal.SIGSTOP then d1 else d
  | _ => d

/-- Disposition of `sig` after the calls, starting from `d`. -/
def sigAfter (sig : Signal) (d : Disp) (calls : List Sys) : Disp :=
  calls.foldl (sigStep sig) d

/-- Effect of one call on the foreground process group of the terminal. -/
def ttyStep (fg : Nat) : Sys → Nat
  | Sys.tcsetpgrp g => g
  | _ => fg

/-- Foreground process group of the terminal after the calls take effect in
the order given, starting from `fg`. -/
def ttyAfter (fg : Nat) (calls : List Sys) : Nat :=
  calls.foldl ttyStep fg

/-! ## Vocabulary of the statements -/

/-- A redirection or background marker: a token whose first character is `>`,
`<` or `&`. -/
def isMarker (t : String) : Bool :=
  firstChar t == '>' || firstChar t == '<' || firstChar t == '&'

/-- The longest prefix of the tokens without a marker. -/
def argPrefix (tokens : List String) : List String :=
  tokens.takeWhile (fun t => !isMarker t)

/-- The first marker token, when there is one. -/
def firstMarker (tokens : List String) : Option String :=
  (tokens.dropWhile (fun t => !isMarker t)).head?

/-- The token that follows the first marker, when there is one. -/
def markerOperand (tokens : List String) : Option String :=
  ((tokens.dropWhile (fun t => !isMarker t)).drop 1).head?

/-- The line the child writes for a redirection without its operand. -/
def syntaxError : Sys :=
  Sys.write 2 "Syntax error.\n"

/-- The frame a scan ends with. -/
def Scan.frame : Scan → Frame
  | Scan.done f => f
  | Scan.stop f _ => f

/-- The calls of the path resolver: an `execv`, or the report of a command
that was not found. -/
def isResolverCall (c : Sys) : Prop :=
  (∃ p a, c = Sys.execv p a) ∨ (∃ name, c = Sys.write 2 (name ++ ": command not found\n"))

/-- The paths on which `execv` was attempted and returned. -/
def execPaths (calls : List Sys) : List String :=
  calls.filterMap (fun c => match c with
    | Sys.execv p _ => some p
    | _ => none)

/-- The non-empty fields of a character sequence split on `:`. -/
def dirsOf (s : List Char) : List (List Char) :=
  (List.splitOn ':' s).filter (fun d => d ≠ [])

/-- The directories of a path string: the non-empty fields obtained by
splitting it on `:`. -/
def pathDirs (path : String) : List String :=
  (dirsOf path.data).map String.mk

/-- The calls that set up a redirection. -/
def isRedirectCall : Sys → Bool
  | Sys.open_ _ _ => true
  | Sys.dup2 _ _ => true
  | _ => false

/-- The calls that change neither a signal disposition nor the foreground
process group of the terminal, and write no prompt. -/
def isQuiet : Sys → Bool
  | Sys.signal _ _ => false
  | Sys.tcsetpgrp _ => false
  | Sys.prompt _ => false
  | _ => true

/-- The calls of `signal`. -/
def isSignal : Sys → Bool
  | Sys.signal _ _ => true
  | _ => false

/-- The calls of `tcsetpgrp`. -/
def isTcsetpgrp : Sys → Bool
  | Sys.tcsetpgrp _ => true
  | _ => false

/-- The numbers of the prompts written. -/
def prompts (calls : List Sys) : List Int :=
  calls.filterMap (fun c => match c with
    | Sys.prompt n => some n
    | _ => none)

/-- A line whose dispatch ends the process running `main`: the built-in `exit`,
or an external command in the process to which `fork` returned 0. -/
def endsProcess (l : Line) : Prop :=
  tokens_get_token l.tokens 0 = some "exit" ∨
  (lookup (tokens_get_token l.tokens 0) < 0 ∧ l.tokens ≠ [] ∧ l.fork = 0)

instance (l : Line) : Decidable (endsProcess l) := by
  unfold endsProcess
  infer_instance

/-- Stores the tokens `ts` into `argv` from index `i` on. -/
def storeAll : Frame → Nat → List String → Frame
  | f, _, [] => f
  | f, i, t :: ts => storeAll (f.store i (Cell.str t)) (i + 1) ts

/-! ## Theorems -/

/-- C5: `lookup` returns the index `i` (0..4) exactly when the word equals,
character for character, the `i`-th name of `?`, `exit`, `pwd`, `cd`, `wait`;
it returns `-1` for every other string and for the absent word. -/
theorem lookup_exact :
    (∀ (s : String) (i : Nat), i < 5 →
        (lookup (some s) = (i : Int) ↔ ["?", "exit", "pwd", "cd", "wait"][i]? = some s)) ∧
    (∀ s : String, lookup (some s) = -1 ↔ s ∉ ["?", "exit", "pwd", "cd", "wait"]) ∧
    lookup none = -1 ∧
    cmd_table.map fun_desc.cmd = ["?", "exit", "pwd", "cd", "wait"] := by
  refine ⟨?_, ?_, ?_, ?_⟩
  · intro s i hi
    simp only [lookup, lookupFrom, cmd_table, beq_iff_eq]
    by_cases h0 : "?" = s
    · subst h0; interval_cases i <;> simp
    by_cases h1 : "exit" = s
    · subst h1; interval_cases i <;> simp
    by_cases h2 : "pwd" = s
    · subst h2; interval_cases i <;> simp
    by_cases h3 : "cd" = s
    · subst h3; interval_cases i <;> simp
    by_cases h4 : "wait" = s
    · subst h4; interval_cases i <;> simp
    interval_cases i <;> simp [h0, h1, h2, h3, h4]
  · intro s
    simp only [lookup, lookupFrom, cmd_table, beq_iff_eq]
    by_cases h0 : "?" = s
    · subst h0; simp
    by_cases h1 : "exit" = s
    · subst h1; simp
    by_cases h2 : "pwd" = s
    · subst h2; simp
    by_cases h3 : "cd" = s
    · subst h3; simp
    by_cases h4 : "wait" = s
    · subst h4; simp
    simp [h0, h1, h2, h3, h4]
    exact ⟨Ne.symm h0, Ne.symm h1, Ne.symm h2, Ne.symm h3, Ne.symm h4⟩
  · rfl
  · rfl

/-! ### The scan of the child -/

theorem storeAll_trace (ts : List String) : ∀ (f : Frame) (i : Nat),
    (storeAll f i ts).trace = f.trace := by
  induction ts with
  | nil => intro f i; rfl
  | cons t ts ih => intro f i; simp [storeAll, ih, Frame.store]

theorem storeAll_argv (ts : List String) : ∀ (f : Frame) (i : Nat) (A B : List Cell),
    f.argv = A ++ B → i = A.length → ts.length ≤ B.length →
    (storeAll f i ts).argv = A ++ ts.map Cell.str ++ B.drop ts.length := by
  induction ts with
  | nil => intro f i A B h _ _; simp [storeAll, h]
  | cons t ts ih =>
    intro f i A B h hi hlen
    cases B with
    | nil => simp at hlen
    | cons b B =>
      have hs : (f.store i (Cell.str t)).argv = (A ++ [Cell.str t]) ++ B := by
        simp [Frame.store, h, hi]
      rw [storeAll, ih _ _ _ _ hs (by simp [hi]) (by simpa using hlen)]
      simp

/-- A token that is not a marker is stored and the loop goes on. -/
theorem argvLoop_arg (env : Env) (tokens : List String) (argc n arg : Nat) (f : Frame)
    (t : String) (ht : tokens[arg]? = some t) (hm : isMarker t = false) :
    argvLoop env tokens argc (n + 1) arg f =
      argvLoop env tokens argc n (arg + 1) (f.store arg (Cell.str t)) := by
  simp only [isMarker, Bool.or_eq_false_iff, beq_eq_false_iff_ne, ne_eq] at hm
  obtain ⟨⟨h1, h2⟩, h3⟩ := hm
  simp [argvLoop, tokens_get_token, ht, h1, h2, h3, Cell.ofToken]

/-- The loop runs through a block of tokens without a marker. -/
theorem argvLoop_skip (env : Env) (tokens : List String) (argc : Nat) (pre : List String) :
    ∀ (seen rest : List String) (n : Nat) (f : Frame),
      tokens = seen ++ pre ++ rest → (∀ t ∈ pre, isMarker t = false) →
      argvLoop env tokens argc (n + pre.length) seen.length f =
        argvLoop env tokens argc n (seen.length + pre.length) (storeAll f seen.length pre) := by
  induction pre with
  | nil => intro seen rest n f _ _; simp [storeAll]
  | cons t ts ih =>
    intro seen rest n f htok hm
    have ht : tokens[seen.length]? = some t := by
      rw [htok, List.append_assoc, List.getElem?_append_right (le_refl _)]; simp
    have e1 : n + (t :: ts).length = (n + ts.length) + 1 := by simp; omega
    rw [e1, argvLoop_arg env tokens argc _ _ f t ht (hm t (by simp))]
    have := ih (seen ++ [t]) rest n (f.store seen.length (Cell.str t)) (by simp [htok])
      (fun x hx => hm x (by simp [hx]))
    simp only [List.length_append, List.length_singleton] at this
    rw [this, storeAll]
    congr 1
    simp; omega

theorem tokens_split (tokens : List String) :
    tokens = [] ++ argPrefix tokens ++ tokens.dropWhile (fun t => !isMarker t) := by
  simp [argPrefix, List.takeWhile_append_dropWhile]

theorem argPrefix_no_marker (tokens : List String) :
    ∀ t ∈ argPrefix tokens, isMarker t = false := by
  intro t ht
  have := List.mem_takeWhile_imp ht
  simpa using this

/-- The loop reaches the first marker (or the end of the tokens) with the
marker-free prefix stored. -/
theorem argvLoop_reaches (env : Env) (tokens : List String) (f : Frame) :
    argvLoop env tokens tokens.length tokens.length 0 f =
      argvLoop env tokens tokens.length (tokens.dropWhile (fun t => !isMarker t)).length
        (argPrefix tokens).length (storeAll f 0 (argPrefix tokens)) := by
  have h := argvLoop_skip env tokens tokens.length (argPrefix tokens) []
    (tokens.dropWhile (fun t => !isMarker t))
    (tokens.dropWhile (fun t => !isMarker t)).length f (tokens_split tokens)
    (argPrefix_no_marker tokens)
  have hl : (tokens.dropWhile (fun t => !isMarker t)).length + (argPrefix tokens).length
      = tokens.length := by
    conv_rhs => rw [tokens_split tokens]
    simp; omega
  rw [hl] at h
  simpa using h

@[simp] theorem Frame.emit_argv (f : Frame) (c : Sys) : (f.emit c).argv = f.argv := rfl

@[simp] theorem Frame.emit_trace (f : Frame) (c : Sys) : (f.emit c).trace = f.trace ++ [c] := rfl

@[simp] theorem Frame.store_argv (f : Frame) (i : Nat) (c : Cell) :
    (f.store i c).argv = f.argv.set i c := rfl

@[simp] theorem Frame.store_trace (f : Frame) (i : Nat) (c : Cell) :
    (f.store i c).trace = f.trace := rfl

/-- The frame with which the loop arrives at index `K = |prefix|`. -/
theorem storeAll_args (env : Env) (tokens : List String) :
    storeAll { argv := List.replicate (tokens.length + 1) Cell.uninit,
               trace := childPrologue env } 0 (argPrefix tokens) =
      { argv := (argPrefix tokens).map Cell.str ++
          List.replicate (tokens.length + 1 - (argPrefix tokens).length) Cell.uninit,
        trace := childPrologue env } := by
  have hle : (argPrefix tokens).length ≤ tokens.length := by
    conv_rhs => rw [tokens_split tokens]
    simp
  have h1 := storeAll_argv (argPrefix tokens)
    (Frame.mk (List.replicate (tokens.length + 1) Cell.uninit) (childPrologue env)) 0 []
    (List.replicate (tokens.length + 1) Cell.uninit) (by simp) (by simp) (by simp; omega)
  have h2 := storeAll_trace (argPrefix tokens)
    (Frame.mk (List.replicate (tokens.length + 1) Cell.uninit) (childPrologue env)) 0
  generalize storeAll (Frame.mk (List.replicate (tokens.length + 1) Cell.uninit)
    (childPrologue env)) 0 (argPrefix tokens) = g at h1 h2
  cases g with
  | mk a t =>
    simp only [List.nil_append, List.drop_replicate] at h1
    simp only at h2
    rw [h1, h2]

/-- Without a marker every token is an argument and the scan makes no call. -/
theorem buildArgv_no_marker (env : Env) (tokens : List String)
    (h : tokens.dropWhile (fun t => !isMarker t) = []) :
    buildArgv env tokens =
      Scan.done ⟨tokens.map Cell.str ++ [Cell.null], childPrologue env⟩ := by
  have hp : argPrefix tokens = tokens := by
    have := tokens_split tokens
    rw [h] at this
    simpa using this.symm
  unfold buildArgv tokens_get_length
  simp only
  rw [argvLoop_reaches, h, storeAll_args, hp]
  simp [argvLoop, Frame.store]

theorem dropWhile_head_marker (tokens : List String) (m : String) (r : List String)
    (h : tokens.dropWhile (fun t => !isMarker t) = m :: r) : isMarker m = true := by
  have := List.head_dropWhile_not (fun t => !isMarker t) tokens (by rw [h]; simp)
  simpa [h] using this

/-- The scan in closed form when the tokens from the first marker `m` on are
`m :: r`: what `buildArgv` returns, with the vector it leaves and the calls it
makes. -/
theorem buildArgv_at_marker (env : Env) (tokens : List String) (m : String) (r : List String)
    (h : tokens.dropWhile (fun t => !isMarker t) = m :: r) :
    ∃ X Y : List Cell, buildArgv env tokens =
      if firstChar m = '>' then
        (if env.open_ r.head? OpenMode.wronly_creat_trunc < 0 then
          Scan.stop ⟨X, childPrologue env ++ (if r = [] then [syntaxError] else []) ++
            [Sys.open_ r.head? OpenMode.wronly_creat_trunc,
             Sys.write 2 "Error opening file for writing.\n"]⟩ (End.exited 1)
        else
          Scan.done ⟨(argPrefix tokens).map Cell.str ++ Cell.null :: Y,
            childPrologue env ++ (if r = [] then [syntaxError] else []) ++
            [Sys.open_ r.head? OpenMode.wronly_creat_trunc,
             Sys.dup2 (env.open_ r.head? OpenMode.wronly_creat_trunc) 1]⟩)
      else if firstChar m = '<' then
        (if env.open_ r.head? OpenMode.rdonly < 0 then
          Scan.stop ⟨X, childPrologue env ++ (if tokens.length < 3 then [syntaxError] else []) ++
            [Sys.open_ r.head? OpenMode.rdonly,
             Sys.write 2 "Error opening file for reading.\n"]⟩ (End.exited 1)
        else
          Scan.done ⟨(argPrefix tokens).map Cell.str ++ Cell.null :: Y,
            childPrologue env ++ (if tokens.length < 3 then [syntaxError] else []) ++
            [Sys.open_ r.head? OpenMode.rdonly,
             Sys.dup2 (env.open_ r.head? OpenMode.rdonly) 0]⟩)
      else
        Scan.done ⟨(argPrefix tokens).map Cell.str ++ Cell.null :: Y,
          childPrologue env ++ [Sys.tcsetpgrp env.shell_pgid]⟩ := by
  have hsplit : tokens = argPrefix tokens ++ m :: r := by
    have := tokens_split tokens
    rw [h] at this
    simpa using this
  have hlen : tokens.length = (argPrefix tokens).length + (r.length + 1) := by
    conv_lhs => rw [hsplit]
    simp
  have ht : tokens[(argPrefix tokens).length]? = some m := by
    have e : (argPrefix tokens ++ m :: r)[(argPrefix tokens).length]? = some m := by
      rw [List.getElem?_append_right (le_refl _)]; simp
    rwa [← hsplit] at e
  have ht1 : tokens[(argPrefix tokens).length + 1]? = r.head? := by
    have e : (argPrefix tokens ++ m :: r)[(argPrefix tokens).length + 1]? = r.head? := by
      rw [List.getElem?_append_right (by omega)]
      cases r <;> simp
    rwa [← hsplit] at e
  have hm := dropWhile_head_marker tokens m r h
  refine ⟨(argPrefix tokens).map Cell.str ++ Cell.str m :: List.replicate (r.length + 1) Cell.uninit,
    (List.replicate (r.length + 1) Cell.uninit).set r.length Cell.null, ?_⟩
  have hrep : tokens.length + 1 - (argPrefix tokens).length = (r.length + 1) + 1 := by omega
  have hse : (argPrefix tokens).length + 1 ≥ tokens.length ↔ r = [] := by
    rw [hlen]; cases r <;> simp
  unfold buildArgv tokens_get_length
  simp only
  rw [argvLoop_reaches, h, storeAll_args, hrep, List.replicate_succ, List.length_cons, argvLoop]
  simp only [tokens_get_token, ht, ht1, Cell.ofToken, hse]
  by_cases c1 : firstChar m = '>'
  · simp only [c1, if_true]
    by_cases o : env.open_ r.head? OpenMode.wronly_creat_trunc < 0
    · simp only [o, if_true]
      by_cases hr : r = [] <;> simp [hr, Frame.store, Frame.emit, syntaxError]
    · simp only [o, if_false]
      by_cases hr : r = [] <;> simp [hr, Frame.store, Frame.emit, syntaxError, hlen]
  · simp only [c1, if_false]
    by_cases c2 : firstChar m = '<'
    · simp only [c2, if_true]
      by_cases o : env.open_ r.head? OpenMode.rdonly < 0
      · simp only [o, if_true]
        by_cases hr : tokens.length < 3 <;> simp [hr, Frame.store, Frame.emit, syntaxError]
      · simp only [o, if_false]
        by_cases hr : tokens.length < 3 <;> simp only [hr, if_true, if_false] <;>
          simp [Frame.store, Frame.emit, syntaxError, hlen]
    · have c3 : firstChar m = '&' := by
        simpa [isMarker, c1, c2] using hm
      simp [c3, Frame.store, Frame.emit, hlen]

theorem pathLoop_trace (env : Env) (name : String) (args : List String) (path_len : Nat) :
    ∀ (n : Nat) (st : Option (List Char × List Char)) (tr : List Sys),
      ∃ extra, (∀ c ∈ extra, isResolverCall c) ∧
        match pathLoop env name args path_len n st tr with
        | Sum.inl tr1 => tr1 = tr ++ extra
        | Sum.inr r => r.trace = tr ++ extra := by
  intro n
  induction n with
  | zero => intro st tr; exact ⟨[], by simp, by simp [pathLoop]⟩
  | succ n ih =>
    intro st tr
    cases st with
    | none => exact ⟨[], by simp, by simp [pathLoop]⟩
    | some pr =>
      obtain ⟨pathtok, rest⟩ := pr
      simp only [pathLoop]
      split_ifs with h1 h2
      · exact ⟨[], by simp, by simp⟩
      · exact ⟨[], by simp, by simp⟩
      · obtain ⟨extra, hall, hm⟩ := ih (strtok ':' rest)
          (tr ++ [Sys.execv (String.mk pathtok ++ "/" ++ name) args])
        refine ⟨Sys.execv (String.mk pathtok ++ "/" ++ name) args :: extra, ?_, ?_⟩
        · intro c hc
          rcases List.mem_cons.mp hc with rfl | hc
          · exact Or.inl ⟨_, _, rfl⟩
          · exact hall c hc
        · revert hm
          cases pathLoop env name args path_len n (strtok ':' rest)
            (tr ++ [Sys.execv (String.mk pathtok ++ "/" ++ name) args]) <;> simp

theorem resolve_trace (env : Env) (name : String) (args : List String) (tr : List Sys) :
    ∃ extra, (∀ c ∈ extra, isResolverCall c) ∧ (resolve env name args tr).trace = tr ++ extra := by
  unfold resolve
  by_cases h1 : '/' ∉ name.data
  · rw [if_pos h1]
    obtain ⟨extra, hall, hm⟩ := pathLoop_trace env name args (env.cs_path.length + 1)
      (env.cs_path.length + 1) (strtok ':' env.cs_path.data) tr
    revert hm
    simp only
    cases pathLoop env name args (env.cs_path.length + 1) (env.cs_path.length + 1)
      (strtok ':' env.cs_path.data) tr with
    | inl tr1 =>
      intro hm
      simp only at hm
      refine ⟨extra ++ [Sys.write 2 (name ++ ": command not found\n")], ?_, by simp [hm]⟩
      intro c hc
      rcases List.mem_append.mp hc with hc | hc
      · exact hall c hc
      · simp only [List.mem_singleton] at hc
        exact Or.inr ⟨name, hc⟩
    | inr r =>
      intro hm
      exact ⟨extra, hall, hm⟩
  · rw [if_neg h1]
    by_cases h2 : env.execv name args = true
    · rw [if_pos h2]
      exact ⟨[], by simp, by simp⟩
    · rw [if_neg h2]
      refine ⟨[Sys.execv name args, Sys.write 2 (name ++ ": command not found\n")], ?_, rfl⟩
      intro c hc
      simp only [List.mem_cons, List.mem_singleton, List.not_mem_nil, or_false] at hc
      rcases hc with rfl | rfl
      · exact Or.inl ⟨_, _, rfl⟩
      · exact Or.inr ⟨name, rfl⟩

/-- The trace of the child is the trace of the scan followed by calls of the
resolver. -/
theorem child_trace (env : Env) (tokens : List String) :
    ∃ extra, (∀ c ∈ extra, isResolverCall c) ∧
      (child env tokens).trace = (buildArgv env tokens).frame.trace ++ extra := by
  unfold child
  cases hb : buildArgv env tokens with
  | stop f e => exact ⟨[], by simp, by simp [Scan.frame]⟩
  | done f =>
    simp only [Scan.frame]
    split
    · exact resolve_trace env _ _ f.trace
    · exact ⟨[], by simp, by simp⟩

theorem syntaxError_not_resolverCall : ¬ isResolverCall syntaxError := by
  rintro (⟨p, a, h⟩ | ⟨name, h⟩)
  · simp [syntaxError] at h
  · simp only [syntaxError, Sys.write.injEq, true_and] at h
    have hl := congrArg String.length h
    rw [String.length_append] at hl
    have e1 : ("Syntax error.\n" : String).length = 14 := by decide
    have e2 : (": command not found\n" : String).length = 20 := by decide
    omega

theorem operand_index (tokens : List String) (m : String) (r : List String)
    (h : tokens.dropWhile (fun t => !isMarker t) = m :: r) :
    tokens[(argPrefix tokens).length + 1]? = r.head? := by
  have hsplit : tokens = argPrefix tokens ++ m :: r := by
    have := tokens_split tokens
    rw [h] at this
    simpa using this
  have e : (argPrefix tokens ++ m :: r)[(argPrefix tokens).length + 1]? = r.head? := by
    rw [List.getElem?_append_right (by omega)]
    cases r <;> simp
  rwa [← hsplit] at e

theorem syntaxError_not_prologue (env : Env) : syntaxError ∉ childPrologue env := by
  simp [childPrologue, syntaxError]

/-- The "Syntax error." line in the trace of the scan, when the tokens from
the first marker on are `m :: r`. -/
theorem scan_syntaxError (env : Env) (tokens : List String) (m : String) (r : List String)
    (hd : tokens.dropWhile (fun t => !isMarker t) = m :: r) :
    (syntaxError ∈ (buildArgv env tokens).frame.trace ↔
      (firstChar m = '>' ∧ r = []) ∨ (firstChar m = '<' ∧ tokens.length < 3)) ∧
    (syntaxError ∈ (buildArgv env tokens).frame.trace →
      ∃ mode post, (buildArgv env tokens).frame.trace =
        childPrologue env ++ syntaxError :: Sys.open_ r.head? mode :: post) := by
  obtain ⟨X, Y, hb⟩ := buildArgv_at_marker env tokens m r hd
  have hp := syntaxError_not_prologue env
  have hp' : Sys.write 2 "Syntax error.\n" ∉ childPrologue env := hp
  by_cases c1 : firstChar m = '>'
  · have c2 : ¬ firstChar m = '<' := by rw [c1]; decide
    rw [if_pos c1] at hb
    by_cases o : env.open_ r.head? OpenMode.wronly_creat_trunc < 0
    · rw [if_pos o] at hb
      by_cases hr : r = []
      · simp [hb, Scan.frame, hr, c1, hp]
      · simp [hb, Scan.frame, hr, c1, c2, hp', syntaxError]
    · rw [if_neg o] at hb
      by_cases hr : r = []
      · simp [hb, Scan.frame, hr, c1, hp]
      · simp [hb, Scan.frame, hr, c1, c2, hp', syntaxError]
  · rw [if_neg c1] at hb
    by_cases c2 : firstChar m = '<'
    · rw [if_pos c2] at hb
      by_cases o : env.open_ r.head? OpenMode.rdonly < 0
      · rw [if_pos o] at hb
        by_cases hr : tokens.length < 3
        · simp [hb, Scan.frame, hr, c2, hp]
        · simp [hb, Scan.frame, hr, c1, c2, hp', syntaxError]
      · rw [if_neg o] at hb
        by_cases hr : tokens.length < 3
        · simp [hb, Scan.frame, hr, c2, hp]
        · simp [hb, Scan.frame, hr, c1, c2, hp', syntaxError]
    · rw [if_neg c2] at hb
      simp [hb, Scan.frame, c1, c2, hp', syntaxError]

theorem child_syntaxError_mem (env : Env) (tokens : List String) :
    syntaxError ∈ (child env tokens).trace ↔
      syntaxError ∈ (buildArgv env tokens).frame.trace := by
  obtain ⟨extra, hall, ht⟩ := child_trace env tokens
  rw [ht, List.mem_append]
  constructor
  · rintro (h | h)
    · exact h
    · exact absurd (hall _ h) syntaxError_not_resolverCall
  · exact Or.inl

theorem syntaxError_characterised (env : Env) (tokens : List String) :
    (syntaxError ∈ (child env tokens).trace ↔
      ∃ m, firstMarker tokens = some m ∧
        ((firstChar m = '>' ∧ tokens[(argPrefix tokens).length + 1]? = none) ∨
         (firstChar m = '<' ∧ tokens.length < 3))) ∧
    (syntaxError ∈ (child env tokens).trace →
      ∃ pre mode post, (child env tokens).trace =
        pre ++ syntaxError :: Sys.open_ (tokens[(argPrefix tokens).length + 1]?) mode :: post) := by
  rw [child_syntaxError_mem]
  cases hd : tokens.dropWhile (fun t => !isMarker t) with
  | nil =>
    have hb := buildArgv_no_marker env tokens hd
    have hp := syntaxError_not_prologue env
    simp [hb, Scan.frame, hp, firstMarker, hd]
  | cons m r =>
    obtain ⟨h1, h2⟩ := scan_syntaxError env tokens m r hd
    have hop := operand_index tokens m r hd
    have hr : r.head? = none ↔ r = [] := by cases r <;> simp
    refine ⟨?_, ?_⟩
    · rw [h1, hop, hr]
      simp [firstMarker, hd]
    · intro hmem
      obtain ⟨mode, post, hs⟩ := h2 hmem
      obtain ⟨extra, _, ht⟩ := child_trace env tokens
      refine ⟨childPrologue env, mode, post ++ extra, ?_⟩
      rw [ht, hs, hop]
      simp


/-! ### Redirections -/

theorem child_redirectCalls (env : Env) (tokens : List String) :
    (child env tokens).trace.filter isRedirectCall =
      (buildArgv env tokens).frame.trace.filter isRedirectCall := by
  obtain ⟨extra, hall, ht⟩ := child_trace env tokens
  rw [ht, List.filter_append]
  have : extra.filter isRedirectCall = [] := by
    rw [List.filter_eq_nil_iff]
    intro c hc
    rcases hall c hc with ⟨p, a, rfl⟩ | ⟨name, rfl⟩ <;> simp [isRedirectCall]
  rw [this, List.append_nil]

theorem prologue_redirectCalls (env : Env) :
    (childPrologue env).filter isRedirectCall = [] := by
  simp [childPrologue, isRedirectCall]

/-- C4, as the code has it: only the first marker of any kind is acted upon.
The child opens the token that follows the first marker for writing and
duplicates it onto descriptor 1 when that marker starts with `>`, opens it
for reading and duplicates it onto descriptor 0 when it starts with `<`, and
sets up no redirection otherwise; every later marker, of the same kind or
not, is ignored, so that at most one redirection is applied in all. -/
theorem redirection_of_first_marker (env : Env) (tokens : List String) :
    (child env tokens).trace.filter isRedirectCall =
      (match firstMarker tokens with
       | none => []
       | some m =>
         if firstChar m = '>' then
           (if env.open_ (markerOperand tokens) OpenMode.wronly_creat_trunc < 0 then
              [Sys.open_ (markerOperand tokens) OpenMode.wronly_creat_trunc]
            else
              [Sys.open_ (markerOperand tokens) OpenMode.wronly_creat_trunc,
               Sys.dup2 (env.open_ (markerOperand tokens) OpenMode.wronly_creat_trunc) 1])
         else if firstChar m = '<' then
           (if env.open_ (markerOperand tokens) OpenMode.rdonly < 0 then
              [Sys.open_ (markerOperand tokens) OpenMode.rdonly]
            else
              [Sys.open_ (markerOperand tokens) OpenMode.rdonly,
               Sys.dup2 (env.open_ (markerOperand tokens) OpenMode.rdonly) 0])
         else []) ∧
    ((child env tokens).trace.filter
      (fun c => match c with
        | Sys.dup2 _ _ => true
        | _ => false)).length ≤ 1 := by
  have key : (child env tokens).trace.filter isRedirectCall =
      (match firstMarker tokens with
       | none => []
       | some m =>
         if firstChar m = '>' then
           (if env.open_ (markerOperand tokens) OpenMode.wronly_creat_trunc < 0 then
              [Sys.open_ (markerOperand tokens) OpenMode.wronly_creat_trunc]
            else
              [Sys.open_ (markerOperand tokens) OpenMode.wronly_creat_trunc,
               Sys.dup2 (env.open_ (markerOperand tokens) OpenMode.wronly_creat_trunc) 1])
         else if firstChar m = '<' then
           (if env.open_ (markerOperand tokens) OpenMode.rdonly < 0 then
              [Sys.open_ (markerOperand tokens) OpenMode.rdonly]
            else
              [Sys.open_ (markerOperand tokens) OpenMode.rdonly,
               Sys.dup2 (env.open_ (markerOperand tokens) OpenMode.rdonly) 0])
         else []) := by
    rw [child_redirectCalls]
    have hp := prologue_redirectCalls env
    cases hd : tokens.dropWhile (fun t => !isMarker t) with
    | nil =>
      have hb := buildArgv_no_marker env tokens hd
      simp [hb, Scan.frame, hp, firstMarker, hd]
    | cons m r =>
      obtain ⟨X, Y, hb⟩ := buildArgv_at_marker env tokens m r hd
      have hfm : firstMarker tokens = some m := by simp [firstMarker, hd]
      have hop : markerOperand tokens = r.head? := by simp [markerOperand, hd]
      rw [hfm, hop, hb]
      simp only
      by_cases c1 : firstChar m = '>'
      · simp only [c1, if_true]
        by_cases o : env.open_ r.head? OpenMode.wronly_creat_trunc < 0
        · simp only [o, if_true]
          by_cases hr : r = [] <;>
            simp [Scan.frame, hr, hp, List.filter_append, isRedirectCall, syntaxError]
        · simp only [o, if_false]
          by_cases hr : r = [] <;>
            simp [Scan.frame, hr, hp, List.filter_append, isRedirectCall, syntaxError]
      · simp only [c1, if_false]
        by_cases c2 : firstChar m = '<'
        · simp only [c2, if_true]
          by_cases o : env.open_ r.head? OpenMode.rdonly < 0
          · simp only [o, if_true]
            by_cases hr : tokens.length < 3 <;>
              simp [Scan.frame, hr, hp, List.filter_append, isRedirectCall, syntaxError]
          · simp only [o, if_false]
            by_cases hr : tokens.length < 3 <;>
              simp [Scan.frame, hr, hp, List.filter_append, isRedirectCall, syntaxError]
        · simp [c2, Scan.frame, hp, List.filter_append, isRedirectCall]
  refine ⟨key, ?_⟩
  have hsub : (child env tokens).trace.filter
      (fun c => match c with
        | Sys.dup2 _ _ => true
        | _ => false) =
      ((child env tokens).trace.filter isRedirectCall).filter
      (fun c => match c with
        | Sys.dup2 _ _ => true
        | _ => false) := by
    rw [List.filter_filter]
    congr 1
    funext c
    cases c <;> simp [isRedirectCall]
  rw [hsub, key]
  cases firstMarker tokens with
  | none => simp
  | some m =>
    simp only
    split_ifs <;> simp

/-- C4, counterexample: in `cat < in > out` the first token starting with `>`
is token 3 and its operand `out` can be opened, yet the child neither opens
`out` nor duplicates anything onto descriptor 1: the scan stopped at `<`. -/
theorem output_marker_after_input_ignored :
    ["cat", "<", "in", ">", "out"].findIdx? (fun t => firstChar t == '>') = some 3 ∧
    tokens_get_token ["cat", "<", "in", ">", "out"] 4 = some "out" ∧
    ¬ quietEnv.open_ (some "out") OpenMode.wronly_creat_trunc < 0 ∧
    (child quietEnv ["cat", "<", "in", ">", "out"]).trace.filter isRedirectCall =
      [Sys.open_ (some "in") OpenMode.rdonly, Sys.dup2 3 0] ∧
    Sys.dup2 (quietEnv.open_ (some "out") OpenMode.wronly_creat_trunc) 1 ∉
      (child quietEnv ["cat", "<", "in", ">", "out"]).trace := by
  decide

/-! ### Syntax errors -/

/-- C9: the child writes "Syntax error." exactly when the first marker starts
with `>` and no token follows it, or starts with `<` and there are fewer than
three tokens; never without a marker or for a marker starting with `&`; and
the write is followed by the `open` of the operand, the child going on. -/
theorem syntax_error_iff (env : Env) (tokens : List String) :
    (syntaxError ∈ (child env tokens).trace ↔
      ∃ m, firstMarker tokens = some m ∧
        ((firstChar m = '>' ∧ tokens[(argPrefix tokens).length + 1]? = none) ∨
         (firstChar m = '<' ∧ tokens.length < 3))) ∧
    (firstMarker tokens = none → syntaxError ∉ (child env tokens).trace) ∧
    (∀ m, firstMarker tokens = some m → firstChar m = '&' →
      syntaxError ∉ (child env tokens).trace) ∧
    (syntaxError ∈ (child env tokens).trace →
      ∃ pre mode post, (child env tokens).trace =
        pre ++ syntaxError :: Sys.open_ (tokens[(argPrefix tokens).length + 1]?) mode :: post) := by
  obtain ⟨h1, h2⟩ := syntaxError_characterised env tokens
  refine ⟨h1, ?_, ?_, h2⟩
  · intro hn hmem
    obtain ⟨m, hm, _⟩ := h1.mp hmem
    rw [hn] at hm
    exact Option.noConfusion hm
  · intro m hm hc hmem
    obtain ⟨m', hm', hcase⟩ := h1.mp hmem
    rw [hm] at hm'
    have e : m = m' := Option.some.inj hm'
    subst e
    rw [hc] at hcase
    rcases hcase with ⟨hx, _⟩ | ⟨hx, _⟩
    · exact absurd hx (by decide)
    · exact absurd hx (by decide)

/-! ### A marker as first token -/

/-- C10, the failing input: on the single token `&`, which is no built-in, the
scan leaves `argv[0] = NULL`, and the child reads it as a string in
`strchr(argv[0], '/')`. -/
theorem lone_ampersand_null_argv0 (env : Env) :
    lookup (tokens_get_token ["&"] 0) = -1 ∧
    buildArgv env ["&"] =
      Scan.done ⟨[Cell.null, Cell.null], childPrologue env ++ [Sys.tcsetpgrp env.shell_pgid]⟩ ∧
    (child env ["&"]).fin = End.fault := by
  refine ⟨by decide, rfl, rfl⟩

/-! ### Foreground or background in the parent -/

theorem dirsOf_nil : dirsOf [] = [] := by
  simp [dirsOf, List.splitOn]

theorem dirsOf_colon (t : List Char) : dirsOf (':' :: t) = dirsOf t := by
  simp [dirsOf, List.splitOn, List.splitOnP_cons]

theorem dirsOf_dropWhile (s : List Char) :
    dirsOf (s.dropWhile (fun c => c == ':')) = dirsOf s := by
  induction s with
  | nil => rfl
  | cons c t ih =>
    by_cases h : c = ':'
    · subst h
      rw [dirsOf_colon]
      simpa [List.dropWhile] using ih
    · rw [List.dropWhile_cons_of_neg (by simpa using h)]

/-- A sequence that starts with a character other than `:` splits into its
first field and the fields of what follows the next `:`. -/
theorem dirsOf_field (c : Char) (cs : List Char) (h : c ≠ ':') :
    dirsOf (c :: cs) =
      (c :: cs).takeWhile (fun x => x != ':') ::
        dirsOf (((c :: cs).dropWhile (fun x => x != ':')).drop 1) := by
  have hsplit := List.takeWhile_append_dropWhile (fun x => x != ':') (c :: cs)
  have hno : ∀ x ∈ (c :: cs).takeWhile (fun x => x != ':'), ¬ ((fun y => y == ':') x = true) := by
    intro x hx
    have := List.mem_takeWhile_imp hx
    simpa using this
  have hne : (c :: cs).takeWhile (fun x => x != ':') ≠ [] := by
    rw [List.takeWhile_cons_of_pos (by simpa using h)]
    simp
  cases hd : (c :: cs).dropWhile (fun x => x != ':') with
  | nil =>
    rw [hd, List.append_nil] at hsplit
    have e : dirsOf (c :: cs) = [c :: cs] := by
      unfold dirsOf List.splitOn
      have hno' : ∀ x ∈ c :: cs, ¬ ((fun y => y == ':') x = true) := by
        rw [← hsplit]; exact hno
      rw [List.splitOnP_eq_single _ _ hno']
      simp
    rw [e, hsplit]
    simp [dirsOf_nil]
  | cons sep rest =>
    have hsep : sep = ':' := by
      have := List.head_dropWhile_not (fun x => x != ':') (c :: cs) (by rw [hd]; simp)
      simpa [hd] using this
    subst hsep
    rw [hd] at hsplit
    have e : dirsOf (c :: cs) =
        (c :: cs).takeWhile (fun x => x != ':') :: dirsOf rest := by
      conv_lhs => rw [← hsplit]
      unfold dirsOf List.splitOn
      rw [List.splitOnP_first _ _ hno ':' (by simp)]
      simp [hne]
    rw [e]
    simp

theorem strtok_none (s : List Char) (h : strtok ':' s = none) : dirsOf s = [] := by
  unfold strtok at h
  rw [← dirsOf_dropWhile]
  cases hd : s.dropWhile (fun c => c == ':') with
  | nil => exact dirsOf_nil
  | cons c cs => rw [hd] at h; simp at h

theorem strtok_some (s tok rest : List Char) (h : strtok ':' s = some (tok, rest)) :
    dirsOf s = tok :: dirsOf rest ∧ rest.length < s.length := by
  unfold strtok at h
  rw [← dirsOf_dropWhile]
  cases hd : s.dropWhile (fun c => c == ':') with
  | nil => rw [hd] at h; simp at h
  | cons c cs =>
    rw [hd] at h
    simp only [Option.some.injEq, Prod.mk.injEq] at h
    obtain ⟨h1, h2⟩ := h
    have hc : c ≠ ':' := by
      have := List.head_dropWhile_not (fun x => x == ':') s (by rw [hd]; simp)
      simpa [hd] using this
    refine ⟨?_, ?_⟩
    · rw [dirsOf_field c cs hc, h1, h2]
    · have hle : (s.dropWhile (fun c => c == ':')).length ≤ s.length :=
        (List.dropWhile_sublist _).length_le
      rw [hd] at hle
      have hsplit := List.takeWhile_append_dropWhile (fun x => x != ':') (c :: cs)
      have hl := congrArg List.length hsplit
      rw [List.length_append] at hl
      have hne : 0 < ((c :: cs).takeWhile (fun x => x != ':')).length := by
        rw [List.takeWhile_cons_of_pos (by simpa using hc)]
        simp
      rw [← h2, List.length_drop]
      omega

/-- With enough iterations allowed, and whatever `execv` answers, the loop
over the path never stops for want of iterations. -/
theorem pathLoop_finishes (env : Env) (name : String) (args : List String) (path_len : Nat) :
    ∀ (n : Nat) (s : List Char) (tr : List Sys), s.length < n →
      ∀ r, pathLoop env name args path_len n (strtok ':' s) tr = Sum.inr r →
        r.fin ≠ End.unfinished := by
  intro n
  induction n with
  | zero => intro s tr h; omega
  | succ n ih =>
    intro s tr hlen r hr
    cases hs : strtok ':' s with
    | none => rw [hs] at hr; simp [pathLoop] at hr
    | some pr =>
      obtain ⟨tok, rest⟩ := pr
      rw [hs] at hr
      simp only [pathLoop] at hr
      obtain ⟨_, hrest⟩ := strtok_some s tok rest hs
      split_ifs at hr with h1 h2
      · rw [← Sum.inr.inj hr]; simp
      · rw [← Sum.inr.inj hr]; simp
      · exact ih rest _ (by omega) r hr

/-- The child always ends by `exit`, a successful `execv` or a fault. -/
theorem child_finishes (env : Env) (tokens : List String) :
    (child env tokens).fin ≠ End.unfinished := by
  unfold child
  cases hb : buildArgv env tokens with
  | stop f e =>
    simp only
    cases hd : tokens.dropWhile (fun t => !isMarker t) with
    | nil => rw [buildArgv_no_marker env tokens hd] at hb; exact Scan.noConfusion hb
    | cons m r =>
      obtain ⟨X, Y, h⟩ := buildArgv_at_marker env tokens m r hd
      rw [hb] at h
      split_ifs at h <;> first
        | exact Scan.noConfusion h
        | (rw [(Scan.stop.inj h).2]; simp)
  | done f =>
    simp only
    split
    · rename_i name args _ _
      unfold resolve
      by_cases h1 : '/' ∉ name.data
      · rw [if_pos h1]
        simp only
        cases hp : pathLoop env name args (env.cs_path.length + 1) (env.cs_path.length + 1)
            (strtok ':' env.cs_path.data) f.trace with
        | inl tr1 => simp
        | inr r =>
          exact pathLoop_finishes env name args _ _ env.cs_path.data f.trace
            (Nat.lt_succ_self env.cs_path.data.length) r hp
      · rw [if_neg h1]
        split_ifs <;> simp
    · simp

/-- When every `execv` returns and the candidates fit into `resolved`, the
loop attempts the candidate of each directory, in order, and leaves. -/
theorem pathLoop_all_fail (env : Env) (name : String) (args : List String) (path_len : Nat)
    (hfail : ∀ p a, env.execv p a = false) :
    ∀ (n : Nat) (s : List Char) (tr : List Sys), s.length < n →
      (∀ d ∈ dirsOf s, path_len ≤ 4096 ∧ d.length + 1 + name.length + 1 ≤ 4096) →
      pathLoop env name args path_len n (strtok ':' s) tr =
        Sum.inl (tr ++ (dirsOf s).map
          (fun d => Sys.execv (String.mk d ++ "/" ++ name) args)) := by
  intro n
  induction n with
  | zero => intro s tr h; omega
  | succ n ih =>
    intro s tr hlen hfit
    cases hs : strtok ':' s with
    | none =>
      rw [strtok_none s hs]
      simp [pathLoop]
    | some pr =>
      obtain ⟨tok, rest⟩ := pr
      obtain ⟨hdirs, hrest⟩ := strtok_some s tok rest hs
      have hfit0 := hfit tok (by rw [hdirs]; simp)
      have hg : ¬ (path_len > 4096 ∨ tok.length + 1 + name.length + 1 > 4096) := by omega
      simp only [pathLoop]
      rw [if_neg hg]
      simp only [hfail, Bool.false_eq_true, if_false]
      rw [ih rest _ (by omega) (fun d hd => hfit d (by rw [hdirs]; simp [hd])), hdirs]
      simp

theorem execPaths_append (a b : List Sys) : execPaths (a ++ b) = execPaths a ++ execPaths b := by
  simp [execPaths, List.filterMap_append]

theorem execPaths_attempts (l : List (List Char)) (name : String) (args : List String) :
    execPaths (l.map (fun d => Sys.execv (String.mk d ++ "/" ++ name) args)) =
      l.map (fun d => String.mk d ++ "/" ++ name) := by
  induction l with
  | nil => rfl
  | cons d ds ih =>
    simp only [List.map_cons]
    rw [← ih]
    rfl

theorem pathDirs_eq (path : String) : pathDirs path = (dirsOf path.data).map String.mk :=
  rfl

/-- C3, as the code has it: when every `execv` returns and each candidate fits
into the 4096 bytes of `resolved`, the paths attempted are `name` alone when
`name` contains `/`, and otherwise `d/name` for each non-empty field `d` of the
default path between `:`, in order (empty fields are skipped by `strtok`);
a name without `/` is never attempted as it is; the child then leaves with
status 0. -/
theorem exec_attempts (env : Env) (name : String) (args : List String) (tr : List Sys)
    (hfail : ∀ p a, env.execv p a = false)
    (hfit : '/' ∉ name.data → ∀ d ∈ pathDirs env.cs_path,
      env.cs_path.length + 1 ≤ 4096 ∧ d.length + 1 + name.length + 1 ≤ 4096) :
    execPaths (resolve env name args tr).trace =
      execPaths tr ++
        (if '/' ∈ name.data then [name]
         else (pathDirs env.cs_path).map (fun d => d ++ "/" ++ name)) ∧
    (resolve env name args tr).fin = End.exited 0 ∧
    ('/' ∉ name.data → name ∉ (pathDirs env.cs_path).map (fun d => d ++ "/" ++ name)) := by
  refine ⟨?_, ?_, ?_⟩
  · unfold resolve
    by_cases h1 : '/' ∉ name.data
    · have hfit' : ∀ d ∈ dirsOf env.cs_path.data,
          env.cs_path.length + 1 ≤ 4096 ∧ d.length + 1 + name.length + 1 ≤ 4096 := by
        intro d hd
        exact hfit h1 (String.mk d) (by rw [pathDirs_eq]; exact List.mem_map_of_mem _ hd)
      have hl := pathLoop_all_fail env name args (env.cs_path.length + 1) hfail
        (env.cs_path.length + 1) env.cs_path.data tr
        (Nat.lt_succ_self env.cs_path.data.length) hfit'
      rw [if_pos h1]
      simp only [hl]
      rw [if_neg h1, execPaths_append, execPaths_append, execPaths_attempts, pathDirs_eq,
        List.map_map]
      simp [execPaths, Function.comp_def]
    · rw [if_neg h1, hfail]
      simp only [Bool.false_eq_true, if_false]
      rw [if_pos (not_not.mp h1), execPaths_append]
      simp [execPaths]
  · unfold resolve
    by_cases h1 : '/' ∉ name.data
    · have hfit' : ∀ d ∈ dirsOf env.cs_path.data,
          env.cs_path.length + 1 ≤ 4096 ∧ d.length + 1 + name.length + 1 ≤ 4096 := by
        intro d hd
        exact hfit h1 (String.mk d) (by rw [pathDirs_eq]; exact List.mem_map_of_mem _ hd)
      have hl := pathLoop_all_fail env name args (env.cs_path.length + 1) hfail
        (env.cs_path.length + 1) env.cs_path.data tr
        (Nat.lt_succ_self env.cs_path.data.length) hfit'
      rw [if_pos h1]
      simp only [hl]
    · rw [if_neg h1, hfail]
      simp
  · intro h1 hmem
    obtain ⟨d, _, hd⟩ := List.mem_map.mp hmem
    apply h1
    rw [← hd]
    simp [String.data_append]

/-- C3, witness: the bare name `ls` with the default path `/bin:/usr/bin`,
every `execv` failing. -/
theorem exec_attempts_witness :
    (∀ p a, quietEnv.execv p a = false) ∧
    ('/' ∉ ("ls" : String).data → ∀ d ∈ pathDirs quietEnv.cs_path,
      quietEnv.cs_path.length + 1 ≤ 4096 ∧ d.length + 1 + ("ls" : String).length + 1 ≤ 4096) ∧
    (execPaths (resolve quietEnv "ls" ["ls"] []).trace =
      execPaths [] ++
        (if '/' ∈ ("ls" : String).data then ["ls"]
         else (pathDirs quietEnv.cs_path).map (fun d => d ++ "/" ++ "ls")) ∧
     (resolve quietEnv "ls" ["ls"] []).fin = End.exited 0 ∧
     ('/' ∉ ("ls" : String).data →
       "ls" ∉ (pathDirs quietEnv.cs_path).map (fun d => d ++ "/" ++ "ls"))) ∧
    pathDirs quietEnv.cs_path = ["/bin", "/usr/bin"] :=
  ⟨fun _ _ => rfl, by decide,
   exec_attempts quietEnv "ls" ["ls"] [] (fun _ _ => rfl) (by decide), by decide⟩

/-- C3, counterexample: with the path `/bin::/usr/bin`, splitting on `:` gives
the three fields `/bin`, the empty string and `/usr/bin`, hence the candidate
`/ls` for the empty one, but the child attempts only `/bin/ls` and
`/usr/bin/ls`. -/
theorem empty_path_field_skipped :
    List.splitOn ':' ("/bin::/usr/bin" : String).data =
      [("/bin" : String).data, [], ("/usr/bin" : String).data] ∧
    (List.splitOn ':' ("/bin::/usr/bin" : String).data).map
      (fun d => String.mk d ++ "/" ++ "ls") = ["/bin/ls", "/ls", "/usr/bin/ls"] ∧
    (∀ p a, { quietEnv with cs_path := "/bin::/usr/bin" }.execv p a = false) ∧
    execPaths (resolve { quietEnv with cs_path := "/bin::/usr/bin" } "ls" ["ls"] []).trace =
      ["/bin/ls", "/usr/bin/ls"] := by
  refine ⟨by decide, by decide, fun _ _ => rfl, by decide⟩

/-! ### The dispatch of one line -/

theorem lookup_cases (cmd : Option String) :
    cmd = some "?" ∨ cmd = some "exit" ∨ cmd = some "pwd" ∨ cmd = some "cd" ∨
      cmd = some "wait" ∨ lookup cmd = -1 := by
  cases cmd with
  | none => exact Or.inr (Or.inr (Or.inr (Or.inr (Or.inr rfl))))
  | some s =>
    by_cases h0 : "?" = s
    · subst h0; simp
    by_cases h1 : "exit" = s
    · subst h1; simp
    by_cases h2 : "pwd" = s
    · subst h2; simp
    by_cases h3 : "cd" = s
    · subst h3; simp
    by_cases h4 : "wait" = s
    · subst h4; simp
    refine Or.inr (Or.inr (Or.inr (Or.inr (Or.inr ?_))))
    simp [lookup, lookupFrom, cmd_table, h0, h1, h2, h3, h4]

/-- The four shapes of a dispatch: a built-in, the forked child, the
supervising parent, a line without tokens. -/
theorem dispatch_cases (pgid : Nat) (l : Line) :
    (∃ h, dispatch pgid l = invoke h l ∧
      (h = Handler.cmd_exit → tokens_get_token l.tokens 0 = some "exit")) ∨
    (lookup (tokens_get_token l.tokens 0) < 0 ∧ l.tokens ≠ [] ∧ l.fork = 0 ∧
      dispatch pgid l =
        ⟨preFork ++ (child { l.child with shell_pgid := pgid } l.tokens).trace,
         some (child { l.child with shell_pgid := pgid } l.tokens).fin⟩) ∨
    (lookup (tokens_get_token l.tokens 0) < 0 ∧ l.tokens ≠ [] ∧ l.fork ≠ 0 ∧
      dispatch pgid l = ⟨preFork ++ supervise pgid l.tokens l.fork, none⟩) ∨
    (l.tokens = [] ∧ dispatch pgid l = ⟨[], none⟩) := by
  rcases lookup_cases (tokens_get_token l.tokens 0) with h | h | h | h | h | h
  · exact Or.inl ⟨Handler.cmd_help, by simp [dispatch, h, lookup, lookupFrom, cmd_table], by simp⟩
  · exact Or.inl ⟨Handler.cmd_exit, by simp [dispatch, h, lookup, lookupFrom, cmd_table],
      fun _ => h⟩
  · exact Or.inl ⟨Handler.cmd_pwd, by simp [dispatch, h, lookup, lookupFrom, cmd_table], by simp⟩
  · exact Or.inl ⟨Handler.cmd_cd, by simp [dispatch, h, lookup, lookupFrom, cmd_table], by simp⟩
  · exact Or.inl ⟨Handler.cmd_wait, by simp [dispatch, h, lookup, lookupFrom, cmd_table], by simp⟩
  · right
    by_cases ht : l.tokens = []
    · refine Or.inr (Or.inr ⟨ht, ?_⟩)
      have hneg : ¬ lookup (tokens_get_token l.tokens 0) ≥ 0 := by rw [h]; decide
      simp only [dispatch]
      rw [if_neg hneg]
      simp [ht, tokens_get_length]
    · have hpos : tokens_get_length l.tokens > 0 := by
        simp only [tokens_get_length]
        exact List.length_pos.mpr ht
      by_cases hf : l.fork = 0
      · exact Or.inl ⟨by rw [h]; decide, ht, hf, by simp [dispatch, h, hpos, hf]⟩
      · exact Or.inr (Or.inl ⟨by rw [h]; decide, ht, hf, by simp [dispatch, h, hpos, hf]⟩)

theorem invoke_quiet (h : Handler) (l : Line) : ∀ c ∈ (invoke h l).trace, isQuiet c = true := by
  cases h
  · simp [invoke, cmd_help, cmd_table, isQuiet]
  · simp [invoke, cmd_exit]
  · simp only [invoke, cmd_pwd]
    cases l.getcwd <;> simp [isQuiet]
  · simp only [invoke, cmd_cd]
    cases tokens_get_token l.tokens 1 with
    | none => simp [isQuiet]
    | some f => simp only; split_ifs <;> simp [isQuiet]
  · simp [invoke, cmd_wait, isQuiet]

theorem invoke_fin (h : Handler) (l : Line) (hne : h ≠ Handler.cmd_exit) :
    (invoke h l).fin = none := by
  cases h
  · rfl
  · exact absurd rfl hne
  · simp only [invoke, cmd_pwd]
    cases l.getcwd <;> rfl
  · simp only [invoke, cmd_cd]
    cases tokens_get_token l.tokens 1 with
    | none => rfl
    | some f => simp only; split_ifs <;> rfl
  · rfl

/-! ### Signal dispositions of the process running `main` -/

theorem sigAfter_append (sig : Signal) (d : Disp) (a b : List Sys) :
    sigAfter sig d (a ++ b) = sigAfter sig (sigAfter sig d a) b := by
  simp [sigAfter, List.foldl_append]

theorem sigAfter_no_signal (sig : Signal) (d : Disp) (cs : List Sys)
    (h : ∀ c ∈ cs, isSignal c = false) : sigAfter sig d cs = d := by
  induction cs generalizing d with
  | nil => rfl
  | cons c cs ih =>
    have hc := h c (by simp)
    have hstep : sigStep sig d c = d := by
      cases c <;> simp_all [isSignal, sigStep]
    simp only [sigAfter, List.foldl_cons, hstep]
    exact ih d (fun x hx => h x (by simp [hx]))

theorem isSignal_of_quiet (c : Sys) (h : isQuiet c = true) : isSignal c = false := by
  cases c <;> simp_all [isQuiet, isSignal]

theorem isSignal_of_resolverCall (c : Sys) (h : isResolverCall c) : isSignal c = false := by
  rcases h with ⟨p, a, rfl⟩ | ⟨name, rfl⟩ <;> rfl

/-- After its prologue the scan calls `signal` no more. -/
theorem scan_trace_shape (env : Env) (tokens : List String) :
    ∃ rest, (buildArgv env tokens).frame.trace = childPrologue env ++ rest ∧
      ∀ c ∈ rest, isSignal c = false := by
  cases hd : tokens.dropWhile (fun t => !isMarker t) with
  | nil =>
    refine ⟨[], ?_, by simp⟩
    rw [buildArgv_no_marker env tokens hd]
    simp [Scan.frame]
  | cons m r =>
    obtain ⟨X, Y, hb⟩ := buildArgv_at_marker env tokens m r hd
    rw [hb]
    split_ifs <;>
      simp only [Scan.frame, List.append_assoc] <;>
      refine ⟨_, rfl, ?_⟩ <;>
      simp [isSignal, syntaxError]

theorem child_trace_shape (env : Env) (tokens : List String) :
    ∃ rest, (child env tokens).trace = childPrologue env ++ rest ∧
      ∀ c ∈ rest, isSignal c = false := by
  obtain ⟨extra, hall, ht⟩ := child_trace env tokens
  obtain ⟨rest, hs, hrest⟩ := scan_trace_shape env tokens
  refine ⟨rest ++ extra, by rw [ht, hs, List.append_assoc], ?_⟩
  intro c hc
  rcases List.mem_append.mp hc with h | h
  · exact hrest c h
  · exact isSignal_of_resolverCall c (hall c h)

/-- Whatever a dispatch does, and in whichever process, `SIGINT` and `SIGTTOU`
are at their default disposition after it when they were before it. -/
theorem dispatch_restores (pgid : Nat) (l : Line) :
    sigAfter Signal.SIGINT Disp.SIG_DFL (dispatch pgid l).trace = Disp.SIG_DFL ∧
    sigAfter Signal.SIGTTOU Disp.SIG_DFL (dispatch pgid l).trace = Disp.SIG_DFL := by
  rcases dispatch_cases pgid l with ⟨h, hd, _⟩ | ⟨_, _, _, hd⟩ | ⟨_, _, _, hd⟩ | ⟨_, hd⟩
  · rw [hd]
    have hq : ∀ c ∈ (invoke h l).trace, isSignal c = false :=
      fun c hc => isSignal_of_quiet c (invoke_quiet h l c hc)
    exact ⟨sigAfter_no_signal _ _ _ hq, sigAfter_no_signal _ _ _ hq⟩
  · rw [hd]
    obtain ⟨rest, hs, hrest⟩ := child_trace_shape { l.child with shell_pgid := pgid } l.tokens
    simp only [hs]
    constructor
    · rw [← List.append_assoc, sigAfter_append, sigAfter_no_signal _ _ rest hrest]
      rfl
    · rw [← List.append_assoc, sigAfter_append, sigAfter_no_signal _ _ rest hrest]
      rfl
  · rw [hd]
    simp only [supervise]
    cases background l.tokens <;> exact ⟨rfl, rfl⟩
  · rw [hd]
    exact ⟨rfl, rfl⟩

theorem iteration_signals (m : Main) (l : Line)
    (h : sigAfter Signal.SIGINT Disp.SIG_DFL m.trace = Disp.SIG_DFL ∧
      sigAfter Signal.SIGTTOU Disp.SIG_DFL m.trace = Disp.SIG_DFL) :
    sigAfter Signal.SIGINT Disp.SIG_DFL (iteration m l).trace = Disp.SIG_DFL ∧
    sigAfter Signal.SIGTTOU Disp.SIG_DFL (iteration m l).trace = Disp.SIG_DFL := by
  obtain ⟨h1, h2⟩ := dispatch_restores m.shell_pgid l
  unfold iteration
  cases hm : m.fin with
  | some e => exact h
  | none =>
    simp only
    cases hr : (dispatch m.shell_pgid l).fin with
    | some e =>
      simp only [sigAfter_append, h.1, h.2, h1, h2, and_self]
    | none =>
      simp only
      split_ifs
      · simp only [sigAfter_append, h.1, h.2, h1, h2]
        exact ⟨rfl, rfl⟩
      · simp only [sigAfter_append, h.1, h.2, h1, h2, and_self]

theorem foldl_signals (lines : List Line) : ∀ (m : Main),
    (sigAfter Signal.SIGINT Disp.SIG_DFL m.trace = Disp.SIG_DFL ∧
      sigAfter Signal.SIGTTOU Disp.SIG_DFL m.trace = Disp.SIG_DFL) →
    sigAfter Signal.SIGINT Disp.SIG_DFL (lines.foldl iteration m).trace = Disp.SIG_DFL ∧
    sigAfter Signal.SIGTTOU Disp.SIG_DFL (lines.foldl iteration m).trace = Disp.SIG_DFL := by
  induction lines with
  | nil => intro m h; exact h
  | cons l ls ih => intro m h; exact ih _ (iteration_signals m l h)

theorem take_no_signal (cs : List Sys) (k : Nat) (h : ∀ c ∈ cs, isSignal c = false) :
    ∀ c ∈ cs.take k, isSignal c = false :=
  fun c hc => h c (List.mem_of_mem_take hc)

/-- C7: at every prompt of a session started with default dispositions,
`SIGINT` and `SIGTTOU` are at their default disposition in the process running
`main`, whatever the lines dispatched (built-in, external in the foreground or
in the background, blank, `fork` having failed). Within one dispatch of the
shell process they are ignored only after the first `signal` call that
precedes `fork` and before the last one of the parent's restore step, and
only if the dispatch is that of an external command. -/
theorem signals_default_at_prompts (isatty : Bool) (pid : Nat) (lines : List Line) :
    (sigAfter Signal.SIGINT Disp.SIG_DFL (session isatty pid lines).trace = Disp.SIG_DFL ∧
     sigAfter Signal.SIGTTOU Disp.SIG_DFL (session isatty pid lines).trace = Disp.SIG_DFL) ∧
    (∀ (pgid : Nat) (l : Line) (k : Nat), l.fork ≠ 0 →
      (sigAfter Signal.SIGINT Disp.SIG_DFL ((dispatch pgid l).trace.take k) = Disp.SIG_IGN ∨
       sigAfter Signal.SIGTTOU Disp.SIG_DFL ((dispatch pgid l).trace.take k) = Disp.SIG_IGN) →
      (lookup (tokens_get_token l.tokens 0) < 0 ∧ l.tokens ≠ []) ∧
      Sys.signal Signal.SIGINT Disp.SIG_IGN ∈ (dispatch pgid l).trace.take k ∧
      Sys.signal Signal.SIGTTOU Disp.SIG_DFL ∈ (dispatch pgid l).trace.drop k) := by
  refine ⟨?_, ?_⟩
  · unfold session
    apply foldl_signals
    cases isatty <;> exact ⟨rfl, rfl⟩
  · intro pgid l k hfork hign
    rcases dispatch_cases pgid l with ⟨h, hd, _⟩ | ⟨_, _, hf, _⟩ | ⟨hl, ht, _, hd⟩ | ⟨_, hd⟩
    · exfalso
      rw [hd] at hign
      have hq : ∀ c ∈ (invoke h l).trace.take k, isSignal c = false :=
        take_no_signal _ k (fun c hc => isSignal_of_quiet c (invoke_quiet h l c hc))
      rw [sigAfter_no_signal _ _ _ hq, sigAfter_no_signal _ _ _ hq] at hign
      rcases hign with h | h <;> exact Disp.noConfusion h
    · exact absurd hf hfork
    · refine ⟨⟨hl, ht⟩, ?_⟩
      rw [hd] at hign ⊢
      simp only [supervise, preFork] at hign ⊢
      rcases Nat.lt_or_ge k 9 with hk | hk
      · cases background l.tokens <;> interval_cases k <;>
          simp [sigAfter, sigStep] at hign ⊢
      · exfalso
        cases background l.tokens <;>
          · rw [List.take_of_length_le (by simpa using hk)] at hign
            simp [sigAfter, sigStep] at hign
    · exfalso
      rw [hd] at hign
      simp [sigAfter] at hign

/-! ### The line counter and the prompts -/

theorem prompts_append (a b : List Sys) : prompts (a ++ b) = prompts a ++ prompts b := by
  simp [prompts, List.filterMap_append]

theorem prompts_quiet (cs : List Sys) (h : ∀ c ∈ cs, isQuiet c = true) : prompts cs = [] := by
  induction cs with
  | nil => rfl
  | cons c cs ih =>
    have hc := h c (by simp)
    have ht := ih (fun x hx => h x (by simp [hx]))
    cases c <;> simp_all [prompts, isQuiet]

/-- A dispatch that does not end the process returns to the loop, and writes
no prompt itself. -/
theorem dispatch_returns (pgid : Nat) (l : Line) (h : ¬ endsProcess l) :
    (dispatch pgid l).fin = none ∧ prompts (dispatch pgid l).trace = [] := by
  rcases dispatch_cases pgid l with ⟨hh, hd, he⟩ | ⟨hl, ht, hf, _⟩ | ⟨_, _, _, hd⟩ | ⟨_, hd⟩
  · rw [hd]
    refine ⟨invoke_fin hh l ?_, prompts_quiet _ (invoke_quiet hh l)⟩
    intro hx
    exact h (Or.inl (he hx))
  · exact absurd (Or.inr ⟨hl, ht, hf⟩) h
  · rw [hd]
    refine ⟨rfl, ?_⟩
    cases hb : background l.tokens <;> simp [prompts, supervise, preFork, hb]
  · rw [hd]
    exact ⟨rfl, rfl⟩

theorem wrapInt_succ (x : Int) (h0 : 0 ≤ x) (h1 : x + 1 < 2147483648) :
    wrapInt (x + 1) = x + 1 := by
  unfold wrapInt
  omega

theorem foldl_interactive (lines : List Line) : ∀ (m : Main),
    m.fin = none → m.shell_is_interactive = true → 0 ≤ m.line_num →
    m.line_num + lines.length < 2147483648 → (∀ l ∈ lines, ¬ endsProcess l) →
    (lines.foldl iteration m).fin = none ∧
    (lines.foldl iteration m).line_num = m.line_num + lines.length ∧
    prompts (lines.foldl iteration m).trace =
      prompts m.trace ++ (List.range lines.length).map (fun (i : Nat) => m.line_num + 1 + (i : Int)) := by
  induction lines with
  | nil => intro m hf _ _ _ _; simp [hf]
  | cons l ls ih =>
    intro m hf hi h0 hb hrun
    simp only [List.length_cons, Nat.cast_add, Nat.cast_one] at hb
    obtain ⟨hd1, hd2⟩ := dispatch_returns m.shell_pgid l (hrun l (by simp))
    have hw := wrapInt_succ m.line_num h0 (by omega)
    have hit : iteration m l =
        { m with line_num := m.line_num + 1,
                 trace := m.trace ++ (dispatch m.shell_pgid l).trace ++
                   [Sys.prompt (m.line_num + 1)] } := by
      unfold iteration
      simp [hf, hd1, hi, hw]
    obtain ⟨r1, r2, r3⟩ := ih (iteration m l) (by rw [hit]; exact hf) (by rw [hit]; exact hi)
      (by rw [hit]; simp only; omega) (by rw [hit]; simp only; omega)
      (fun x hx => hrun x (by simp [hx]))
    rw [List.foldl_cons]
    refine ⟨r1, ?_, ?_⟩
    · rw [r2, hit]
      simp only [List.length_cons, Nat.cast_add, Nat.cast_one]
      omega
    · rw [r3, hit]
      simp only [prompts_append, hd2, List.append_nil, List.length_cons]
      rw [List.range_succ_eq_map, List.map_cons, List.map_map, List.append_assoc]
      congr 1
      simp only [prompts, List.filterMap_cons, List.filterMap_nil, Nat.cast_zero, add_zero,
        List.singleton_append, List.cons.injEq, true_and]
      apply List.map_congr_left
      intro i _
      simp only [Function.comp_apply, Nat.cast_succ]
      omega

theorem foldl_batch (lines : List Line) : ∀ (m : Main),
    m.fin = none → m.shell_is_interactive = false → (∀ l ∈ lines, ¬ endsProcess l) →
    (lines.foldl iteration m).fin = none ∧
    (lines.foldl iteration m).line_num = m.line_num ∧
    prompts (lines.foldl iteration m).trace = prompts m.trace := by
  induction lines with
  | nil => intro m hf _ _; simp [hf]
  | cons l ls ih =>
    intro m hf hi hrun
    obtain ⟨hd1, hd2⟩ := dispatch_returns m.shell_pgid l (hrun l (by simp))
    have hit : iteration m l =
        { m with trace := m.trace ++ (dispatch m.shell_pgid l).trace } := by
      unfold iteration
      simp [hf, hd1, hi]
    obtain ⟨r1, r2, r3⟩ := ih (iteration m l) (by rw [hit]; exact hf) (by rw [hit]; exact hi)
      (fun x hx => hrun x (by simp [hx]))
    rw [List.foldl_cons]
    refine ⟨r1, by rw [r2, hit], ?_⟩
    rw [r3, hit]
    simp [prompts_append, hd2]

/-- C8, as the code has it: over lines none of which ends the process (fewer
than 2^31 of them), in an interactive session the line counter is 0 before the
first read and is k after the k-th dispatch, whatever the lines are, and the
prompts written are those numbered 0 to k; in a non-interactive session the
counter is not advanced, it stays 0, and no prompt is written. -/
theorem line_counter (isatty : Bool) (pid : Nat) (lines : List Line)
    (hrun : ∀ l ∈ lines, ¬ endsProcess l) (hlen : lines.length < 2147483648) :
    (session isatty pid lines).fin = none ∧
    (session isatty pid lines).line_num = (if isatty then (lines.length : Int) else 0) ∧
    prompts (session isatty pid lines).trace =
      (if isatty then (List.range (lines.length + 1)).map (fun (k : Nat) => (k : Int)) else []) := by
  unfold session
  cases isatty with
  | true =>
    obtain ⟨r1, r2, r3⟩ := foldl_interactive lines (start true pid) rfl rfl (by simp [start])
      (by simp only [start]; omega) hrun
    refine ⟨r1, ?_, ?_⟩
    · rw [r2]; simp [start]
    · rw [r3]
      simp only [if_true]
      rw [List.range_succ_eq_map, List.map_cons, List.map_map]
      simp only [start, prompts, if_true, List.filterMap_cons, List.filterMap_nil,
        List.singleton_append, Nat.cast_zero, List.cons.injEq, true_and]
      apply List.map_congr_left
      intro i _
      simp only [Function.comp_apply, Nat.cast_succ]
      omega
  | false =>
    obtain ⟨r1, r2, r3⟩ := foldl_batch lines (start false pid) rfl rfl hrun
    exact ⟨r1, by rw [r2]; rfl, by rw [r3]; rfl⟩

/-- C8, witness: an interactive session of three lines, blank, `pwd` and an
external command in the background. -/
theorem line_counter_witness :
    (∀ l ∈ [blankLine, pwdLine, redirectedJob], ¬ endsProcess l) ∧
    [blankLine, pwdLine, redirectedJob].length < 2147483648 ∧
    (session true 100 [blankLine, pwdLine, redirectedJob]).fin
      = none ∧
    (session true 100 [blankLine, pwdLine, redirectedJob]).line_num
      = (if true then
          (([blankLine, pwdLine, redirectedJob].length : Nat) : Int)
         else 0) ∧
    prompts (session true 100
        [blankLine, pwdLine, redirectedJob]).trace =
      (if true then
        (List.range ([blankLine, pwdLine, redirectedJob].length + 1)).map
          (fun (k : Nat) => (k : Int))
       else []) :=
  ⟨by decide, by decide,
   line_counter true 100 [blankLine, pwdLine, redirectedJob]
     (by decide) (by decide)⟩

/-- C8, counterexample: in a non-interactive session the counter is still 0
after the first dispatch (here of a blank line), and no prompt is written. -/
theorem batch_counter_not_advanced :
    (session false 100 [blankLine]).fin = none ∧
    (session false 100 [blankLine]).line_num = 0 ∧
    (session false 100 [blankLine]).line_num ≠ 1 ∧
    prompts (session false 100 [blankLine]).trace = [] := by
  decide

/-! ### The terminal after a background dispatch -/

/-- C6, the failing input: for `sleep 5 > out &` the parent does not wait for
the child (`waitpid` with `WNOHANG`) before it takes the terminal back, and the
child, whose scan stops at `>`, takes the terminal for its own process group
and never hands it back. When the calls of the child take effect after those
of the parent and before the next prompt, the foreground process group at
that prompt is that of the child, 101, and not `shell_pgid`, 100; when they
take effect before those of the parent it is that of the shell. -/
theorem background_child_keeps_terminal :
    (dispatch 100 redirectedJob).trace =
      preFork ++ [Sys.waitpid 101 true, Sys.tcsetpgrp 100,
        Sys.signal Signal.SIGINT Disp.SIG_DFL, Sys.signal Signal.SIGSTOP Disp.SIG_DFL,
        Sys.signal Signal.SIGTTOU Disp.SIG_DFL] ∧
    (child quietEnv redirectedJob.tokens).trace.filter isTcsetpgrp = [Sys.tcsetpgrp 101] ∧
    (session true 100 [redirectedJob]).shell_pgid = 100 ∧
    (session true 100 [redirectedJob]).trace =
      (start true 100).trace ++ (dispatch 100 redirectedJob).trace ++ [Sys.prompt 1] ∧
    ttyAfter 100 ((start true 100).trace ++ (dispatch 100 redirectedJob).trace ++
      (child quietEnv redirectedJob.tokens).trace ++ [Sys.prompt 1]) = 101 ∧
    ttyAfter 100 ((start true 100).trace ++ preFork ++
      (child quietEnv redirectedJob.tokens).trace ++
      supervise 100 redirectedJob.tokens 101 ++ [Sys.prompt 1]) = 100 := by
  decide

/-! ### Instances of the conditional statements -/

/-- C7, witness: after the first two calls of the dispatch of `sleep 5 > out &`
in the shell process `SIGINT` is ignored, inside the window. -/
theorem signals_default_at_prompts_witness :
    redirectedJob.fork ≠ 0 ∧
    sigAfter Signal.SIGINT Disp.SIG_DFL ((dispatch 100 redirectedJob).trace.take 2) =
      Disp.SIG_IGN ∧
    ((lookup (tokens_get_token redirectedJob.tokens 0) < 0 ∧ redirectedJob.tokens ≠ []) ∧
      Sys.signal Signal.SIGINT Disp.SIG_IGN ∈ (dispatch 100 redirectedJob).trace.take 2 ∧
      Sys.signal Signal.SIGTTOU Disp.SIG_DFL ∈ (dispatch 100 redirectedJob).trace.drop 2) :=
  ⟨by decide, by decide,
   (signals_default_at_prompts true 100 []).2 100 redirectedJob 2 (by decide)
     (Or.inl (by decide))⟩

end Shell
